import Mathlib

/-!
Verification of the concurrency/task-lifecycle layer of the ags-cookbook
load-testing extension and image precache tool.

The Go sources are shallowly embedded:
* `AsyncTaskExecutor` state (result buffer + pending counter) with its
  operations `Submit` (accounting part), task completion, and `GetResults`;
* the jitter calculator `applyJitter` (the value drawn from `rand.Float64()`
  is passed explicitly as a rational in `[0,1)`);
* the token manager `getToken` (remote call outcome passed explicitly;
  time measured in integer seconds);
* `StartSandboxInstanceWithAsyncStop` (remote start outcome and stop-task
  submission outcome passed explicitly);
* the `RunAsyncStress` task body (per-round remote execution passed as a
  function);
* the precache tool's retry machinery `processRetries` / `addFailedTask`
  (whether a resubmitted task fails again is passed as an oracle).
-/

namespace AgsCookbook

/-- Embeds `AsyncTaskResult[T]`: the record built for every completed task. -/
structure AsyncTaskResult (T : Type) where
  taskID : String
  result : T
  error : String
  startedAt : Int
  endedAt : Int
  durationMs : Int
  deriving Repr, DecidableEq

/-- The mutable state of `AsyncTaskExecutor[T]`: the completed-result buffer
`results` and the in-flight counter `pendingCount`. -/
structure AsyncTaskExecutor (T : Type) where
  results : List (AsyncTaskResult T)
  pendingCount : Int
  deriving Repr, DecidableEq

/-- A fresh executor (`NewAsyncTaskExecutor`): empty buffer, zero pending. -/
def NewAsyncTaskExecutor (T : Type) : AsyncTaskExecutor T :=
  { results := [], pendingCount := 0 }

/-- Embeds `GetResults`: under the buffer lock, if the buffer is empty return
`none` (Go `nil`), otherwise return the whole buffer and swap in an empty one.
Returns the drained value together with the post-state. -/
def GetResults {T : Type} (e : AsyncTaskExecutor T) :
    Option (List (AsyncTaskResult T)) × AsyncTaskExecutor T :=
  if e.results.isEmpty then (none, e)
  else (some e.results, { e with results := [] })

/-- Embeds the synchronous accounting of `Submit`:
`atomic.AddInt64(&e.pendingCount, 1)` before the task is handed to the pool. -/
def submitAccount {T : Type} (e : AsyncTaskExecutor T) : AsyncTaskExecutor T :=
  { e with pendingCount := e.pendingCount + 1 }

/-- Embeds the tail of a task body: append the built `AsyncTaskResult` to the
buffer under the lock, then `atomic.AddInt64(&e.pendingCount, -1)`. -/
def completeTask {T : Type} (e : AsyncTaskExecutor T) (r : AsyncTaskResult T) :
    AsyncTaskExecutor T :=
  { e with results := e.results ++ [r], pendingCount := e.pendingCount - 1 }

/-- One observable event on an executor: a `Submit` call, the completion of a
previously submitted task, or a `GetResults` drain. -/
inductive ExecEvent (T : Type) where
  | submit (taskID : String) (delaySeconds : Int)
  | complete (r : AsyncTaskResult T)
  | drain
  deriving Repr, DecidableEq

/-- Apply one event to the executor state. -/
def applyEvent {T : Type} (e : AsyncTaskExecutor T) : ExecEvent T → AsyncTaskExecutor T
  | ExecEvent.submit _ _ => submitAccount e
  | ExecEvent.complete r => completeTask e r
  | ExecEvent.drain => (GetResults e).2

/-- Run a sequence of events from a state. -/
def runEvents {T : Type} (e : AsyncTaskExecutor T) (evs : List (ExecEvent T)) :
    AsyncTaskExecutor T :=
  evs.foldl applyEvent e

/-- Number of `Submit` events in a trace. -/
def numSubmits {T : Type} : List (ExecEvent T) → Nat
  | [] => 0
  | ExecEvent.submit _ _ :: t => numSubmits t + 1
  | _ :: t => numSubmits t

/-- Number of completion events in a trace. -/
def numCompletes {T : Type} : List (ExecEvent T) → Nat
  | [] => 0
  | ExecEvent.complete _ :: t => numCompletes t + 1
  | _ :: t => numCompletes t

/-- A trace is well formed when, starting from `inflight` tasks in flight,
no task completes that was never submitted: each `complete` consumes one
in-flight task, each `submit` adds one. -/
def validFrom {T : Type} (inflight : Nat) : List (ExecEvent T) → Bool
  | [] => true
  | ExecEvent.submit _ _ :: t => validFrom (inflight + 1) t
  | ExecEvent.complete _ :: t =>
      match inflight with
      | 0 => false
      | i + 1 => validFrom i t
  | ExecEvent.drain :: t => validFrom inflight t

/-- A trace of a freshly created executor is valid when every completion is
preceded by a matching submission. -/
def validTrace {T : Type} (evs : List (ExecEvent T)) : Bool :=
  validFrom 0 evs

/-- Number of `drain` events in a trace. -/
def numDrains {T : Type} : List (ExecEvent T) → Nat
  | [] => 0
  | ExecEvent.drain :: t => numDrains t + 1
  | _ :: t => numDrains t

/-! ### Jitter calculator (`applyJitter`) -/

/-- Go's `int(x)` conversion from `float64`: truncation toward zero. -/
def ratTrunc (q : ℚ) : Int :=
  if 0 ≤ q then ⌊q⌋ else -⌊-q⌋

/-- Embeds `applyJitter(value, jitterPct int) int`. The draw of
`rand.Float64()` (uniform in `[0,1)`) is passed explicitly as `r`. -/
def applyJitter (value jitterPct : Int) (r : ℚ) : Int :=
  if jitterPct ≤ 0 ∨ value ≤ 0 then value
  else
    let jitter : ℚ := (value : ℚ) * (jitterPct : ℚ) / 100
    let delta : ℚ := (r * 2 - 1) * jitter
    let result : Int := ratTrunc ((value : ℚ) + delta)
    if result < 1 then 1 else result

/-! ### Token manager (`tokenManager.getToken`) -/

/-- Embeds `tokenCache`: a cached token with its absolute expiry.
Time is modelled in integer seconds. -/
structure tokenCache where
  token : String
  expiresAt : Int
  deriving Repr, DecidableEq

/-- The `ExpiresAt` field of the remote token response: absent (`nil`),
present but failing `time.Parse(time.RFC3339Nano, ...)`, or parsed. -/
inductive RemoteExpiry where
  | absent
  | unparsable
  | parsed (t : Int)
  deriving Repr, DecidableEq

/-- Outcome of the remote `AcquireSandboxInstanceToken` call: an error, a
response with a `nil` token, or a token with its expiry field. -/
inductive RemoteTokenResult where
  | err (msg : String)
  | emptyToken
  | ok (token : String) (expiresAt : RemoteExpiry)
  deriving Repr, DecidableEq

/-- The expiry actually cached: `time.Now().Add(5 * time.Minute)` (300 s),
overwritten by the parsed `ExpiresAt` when present and parsable. -/
def effectiveExpiry (now : Int) : RemoteExpiry → Int
  | RemoteExpiry.parsed t => t
  | _ => now + 300

/-- The cache-validity condition checked both under the read lock and under
the write lock: an entry exists and `time.Now().Add(30*time.Second)` is
before its expiry. -/
def cacheValid (cache : List (String × tokenCache)) (now : Int) (id : String) : Bool :=
  match List.lookup id cache with
  | some c => decide (now + 30 < c.expiresAt)
  | none => false

/-- The remote acquisition and caching step of `getToken` (the part after the
double check misses). Returns the result and the updated cache. -/
def acquireAndCache (cache : List (String × tokenCache)) (now : Int) (id : String)
    (remote : RemoteTokenResult) : Except String String × List (String × tokenCache) :=
  match remote with
  | RemoteTokenResult.err msg => (Except.error ("failed to acquire token: " ++ msg), cache)
  | RemoteTokenResult.emptyToken => (Except.error "empty token response", cache)
  | RemoteTokenResult.ok tok exp =>
      (Except.ok tok, (id, ⟨tok, effectiveExpiry now exp⟩) :: cache)

/-- Embeds the exclusive-lock section of `getToken`: re-check the cache
(double check), and only on a miss perform the remote acquisition. The third
component records whether the remote call was performed. -/
def getTokenLocked (cache : List (String × tokenCache)) (now : Int) (id : String)
    (remote : RemoteTokenResult) :
    Except String String × List (String × tokenCache) × Bool :=
  match List.lookup id cache with
  | some c =>
      if now + 30 < c.expiresAt then (Except.ok c.token, cache, false)
      else
        let rc := acquireAndCache cache now id remote
        (rc.1, rc.2, true)
  | none =>
      let rc := acquireAndCache cache now id remote
      (rc.1, rc.2, true)

/-- Embeds `getToken`: optimistic read under the shared lock, falling back to
the exclusive-lock section. The third component records whether the remote
call was performed. -/
def getToken (cache : List (String × tokenCache)) (now : Int) (id : String)
    (remote : RemoteTokenResult) :
    Except String String × List (String × tokenCache) × Bool :=
  match List.lookup id cache with
  | some c =>
      if now + 30 < c.expiresAt then (Except.ok c.token, cache, false)
      else getTokenLocked cache now id remote
  | none => getTokenLocked cache now id remote

/-! ### Control-plane start with asynchronous stop
(`StartSandboxInstanceWithAsyncStop`) -/

/-- A fragment of Go's `map[string]any` values, sufficient for the
`Data.Instance.InstanceId` extraction: a string, a nested object, or any
other JSON value (on which the Go type assertions fail). -/
inductive JValue where
  | str (s : String)
  | obj (fields : List (String × JValue))
  | other

/-- Embeds the identifier extraction of `StartSandboxInstanceWithAsyncStop`:
`resp.Data["Instance"].(map[string]any)` then `["InstanceId"].(string)`,
requiring a non-empty string; any failed assertion yields `none`. -/
def instanceIdOf (data : List (String × JValue)) : Option String :=
  match List.lookup "Instance" data with
  | some (JValue.obj inst) =>
      match List.lookup "InstanceId" inst with
      | some (JValue.str s) => if s = "" then none else some s
      | _ => none
  | _ => none

/-- Embeds `ControlPlaneResponse`. -/
structure ControlPlaneResponse where
  success : Bool
  data : List (String × JValue)
  error : String
  requestID : String
  timingMs : Int

/-- Result of one `StartSandboxInstanceWithAsyncStop` call: the returned
response, whether the remote start was performed, and whether `Submit` was
invoked for the stop task. -/
structure StartStopOutcome where
  resp : ControlPlaneResponse
  startCalled : Bool
  stopSubmitCalled : Bool

/-- Embeds `StartSandboxInstanceWithAsyncStop`. The remote start outcome
`startResp` and the stop-task submission outcome `submitErr` (`some msg` when
the pool rejects the task) are passed explicitly. -/
def StartSandboxInstanceWithAsyncStop (delaySeconds : Int)
    (startResp : ControlPlaneResponse) (submitErr : Option String) : StartStopOutcome :=
  if delaySeconds ≤ 0 then
    ⟨⟨false, [], "delaySeconds must be greater than 0", "", 0⟩, false, false⟩
  else if startResp.success = false then ⟨startResp, true, false⟩
  else
    match instanceIdOf startResp.data with
    | none => ⟨startResp, true, false⟩
    | some _ =>
        match submitErr with
        | none => ⟨startResp, true, true⟩
        | some e =>
            ⟨{ startResp with
                 success := false
                 error := "failed to submit stop task: " ++ e }, true, true⟩

/-! ### Multi-round stress chain (`RunAsyncStress` task body) -/

/-- Embeds the round loop of the `RunAsyncStress` task body: execute each
round's remote operation (`exec`) strictly in list order; every round except
the last is submitted as its own zero-delay result task. Returns the list of
independently submitted intermediate results, in submission order, together
with the last round's response (`none` only for an empty round list, which
`RunAsyncStress` never produces). -/
def runStressRounds {α β : Type} (exec : α → β) : List α → List β × Option β
  | [] => ([], none)
  | [c] => ([], some (exec c))
  | c :: c' :: rest =>
      let r := exec c
      let rl := runStressRounds exec (c' :: rest)
      (r :: rl.1, rl.2)

/-- Embeds the whole `RunAsyncStress` task body: run the rounds, then
unconditionally submit exactly one stop task, and return the last round's
response as the chain's own result. The middle component counts stop-task
submissions. -/
def RunAsyncStressBody {α β : Type} (exec : α → β) (configs : List α) :
    List β × Nat × Option β :=
  let rl := runStressRounds exec configs
  (rl.1, 1, rl.2)

/-! ### Precache tool: bounded retry rounds (`processRetries`) -/

/-- Embeds `failedTask`: an image reference with its retry count so far. -/
structure failedTask where
  imageRef : String
  retryCount : Int
  deriving Repr, DecidableEq

/-- Embeds `addFailedTask`: append a failed task to the retry queue (under
`failedMu`). -/
def addFailedTask (queue : List failedTask) (imageRef : String) (retryCount : Int) :
    List failedTask :=
  queue ++ [⟨imageRef, retryCount⟩]

/-- The effective maximum retry count of `processRetries`:
`cfg.MaxRetries`, defaulting to 3 when the configured value is `≤ 0`. -/
def effMaxRetries (m : Int) : Int := if m ≤ 0 then 3 else m

/-- One drained task's treatment in the retry loop body: a task whose retry
count reached the maximum is skipped (permanently failed); otherwise it is
resubmitted with retry count `+1`, and lands back in the queue (via
`addFailedTask`) exactly when that resubmission fails again — `fails img n`
says whether the attempt of `img` with retry count `n` fails. -/
def retryStep (maxRetries : Int) (fails : String → Int → Bool)
    (q : List failedTask) (t : failedTask) : List failedTask :=
  if t.retryCount ≥ maxRetries then q
  else if fails t.imageRef (t.retryCount + 1) then
    addFailedTask q t.imageRef (t.retryCount + 1)
  else q

/-- One retry round of `processRetries`: drain the whole queue and process
every drained task, accumulating next round's queue (empty at the start of
the round, because the drain swapped `failedQueue` for `nil`). -/
def processRound (maxRetries : Int) (fails : String → Int → Bool)
    (tasks : List failedTask) : List failedTask :=
  tasks.foldl (retryStep maxRetries fails) []

/-- The fate of a single drained task, as an optional successor: `none` when
discarded (retry count at the maximum) or when its resubmission succeeds;
`some` of the incremented task when the resubmission fails again. -/
def retryFate (maxRetries : Int) (fails : String → Int → Bool)
    (t : failedTask) : Option failedTask :=
  if t.retryCount ≥ maxRetries then none
  else if fails t.imageRef (t.retryCount + 1) then some ⟨t.imageRef, t.retryCount + 1⟩
  else none

/-- Termination measure of one retry task: how many more rounds it can
possibly survive, plus one. -/
def taskMeasure (maxRetries : Int) (t : failedTask) : Nat :=
  (maxRetries + 1 - t.retryCount).toNat + 1

/-- Termination measure of a retry queue. -/
def queueMeasure (maxRetries : Int) (q : List failedTask) : Nat :=
  (q.map (taskMeasure maxRetries)).sum

/-- The retry loop of `processRetries`, fuelled: returns the successive
drained queues, one per round, stopping when a drain yields an empty queue.
`queueMeasure` fuel is always sufficient (`retryRoundsFuel_stable`), so the
fuelled runs coincide with the unbounded loop. -/
def retryRoundsFuel (maxRetries : Int) (fails : String → Int → Bool) :
    Nat → List failedTask → List (List failedTask)
  | 0, _ => []
  | _ + 1, [] => []
  | n + 1, q => q :: retryRoundsFuel maxRetries fails n (processRound maxRetries fails q)

/-- The retry loop of `processRetries`: the list of drained queues, round by
round, until a drain yields an empty queue. -/
def retryRounds (maxRetries : Int) (fails : String → Int → Bool)
    (queue : List failedTask) : List (List failedTask) :=
  retryRoundsFuel maxRetries fails (queueMeasure maxRetries queue) queue

lemma GetResults_pendingCount {T : Type} (e : AsyncTaskExecutor T) :
    ((GetResults e).2).pendingCount = e.pendingCount := by
  unfold GetResults
  by_cases h : e.results.isEmpty <;> simp [h]

lemma runEvents_pendingCount {T : Type} (evs : List (ExecEvent T)) :
    ∀ e : AsyncTaskExecutor T,
      (runEvents e evs).pendingCount =
        e.pendingCount + numSubmits evs - numCompletes evs := by
  induction evs with
  | nil => intro e; simp [runEvents, numSubmits, numCompletes]
  | cons hd t ih =>
      intro e
      cases hd with
      | submit id d =>
          have := ih (applyEvent e (ExecEvent.submit id d))
          simp only [runEvents, List.foldl_cons] at this ⊢
          rw [this]
          simp [applyEvent, submitAccount, numSubmits, numCompletes]
          ring
      | complete r =>
          have := ih (applyEvent e (ExecEvent.complete r))
          simp only [runEvents, List.foldl_cons] at this ⊢
          rw [this]
          simp [applyEvent, completeTask, numSubmits, numCompletes]
          ring
      | drain =>
          have := ih (applyEvent e ExecEvent.drain)
          simp only [runEvents, List.foldl_cons] at this ⊢
          rw [this]
          simp [applyEvent, GetResults_pendingCount, numSubmits, numCompletes]

lemma validFrom_completes_le {T : Type} (evs : List (ExecEvent T)) :
    ∀ i : Nat, validFrom i evs = true → numCompletes evs ≤ i + numSubmits evs := by
  induction evs with
  | nil => intro i _; simp [numCompletes]
  | cons hd t ih =>
      intro i hv
      cases hd with
      | submit id d =>
          simp only [validFrom] at hv
          have := ih (i + 1) hv
          simp [numCompletes, numSubmits]
          omega
      | complete r =>
          simp only [validFrom] at hv
          cases i with
          | zero => simp at hv
          | succ j =>
              have := ih j hv
              simp [numCompletes, numSubmits]
              omega
      | drain =>
          simp only [validFrom] at hv
          have := ih i hv
          simp [numCompletes, numSubmits]
          omega

lemma runEvents_results_length {T : Type} (evs : List (ExecEvent T))
    (hd : numDrains evs = 0) :
    ∀ e : AsyncTaskExecutor T,
      (runEvents e evs).results.length = e.results.length + numCompletes evs := by
  induction evs with
  | nil => intro e; simp [runEvents, numCompletes]
  | cons h t ih =>
      intro e
      cases h with
      | submit id d =>
          simp only [numDrains] at hd
          have := ih hd (applyEvent e (ExecEvent.submit id d))
          simp only [runEvents, List.foldl_cons] at this ⊢
          rw [this]
          simp [applyEvent, submitAccount, numCompletes]
      | complete r =>
          simp only [numDrains] at hd
          have := ih hd (applyEvent e (ExecEvent.complete r))
          simp only [runEvents, List.foldl_cons] at this ⊢
          rw [this]
          simp [applyEvent, completeTask, numCompletes]
          omega
      | drain =>
          simp only [numDrains] at hd
          exfalso
          omega

/-- **C1.** `GetResults` atomically swaps the whole completed-result buffer for
an empty one and returns the old contents: the drained value carries exactly
the pre-call buffer, the post-call buffer is empty, and a second `GetResults`
with no intervening completion returns `none` (Go `nil`) and changes nothing —
each buffered result is returned by exactly one drain. -/
theorem GetResults_swap_exactly_once {T : Type} (e : AsyncTaskExecutor T) :
    ((GetResults e).1.getD []) = e.results
    ∧ ((GetResults e).2).results = []
    ∧ (GetResults ((GetResults e).2)).1 = none
    ∧ (GetResults ((GetResults e).2)).2 = (GetResults e).2 := by
  by_cases h : e.results.isEmpty
  · have h' : e.results = [] := by simpa [List.isEmpty_iff] using h
    simp [GetResults, h, h']
  · simp [GetResults, h]

/-- **C3.** For every valid trace of a fresh executor (no task completes that
was never submitted), the pending counter is never negative, equals
submissions minus completions, is at most the number `N` of `Submit` calls,
and is `0` exactly once every submitted task has completed; on drain-free
traces the buffer holds one appended result per completed task. -/
theorem pendingCount_invariant {T : Type} (evs : List (ExecEvent T))
    (h : validTrace evs = true) :
    0 ≤ (runEvents (NewAsyncTaskExecutor T) evs).pendingCount
    ∧ (runEvents (NewAsyncTaskExecutor T) evs).pendingCount =
        (numSubmits evs : Int) - numCompletes evs
    ∧ (runEvents (NewAsyncTaskExecutor T) evs).pendingCount ≤ (numSubmits evs : Int)
    ∧ (numCompletes evs = numSubmits evs →
        (runEvents (NewAsyncTaskExecutor T) evs).pendingCount = 0)
    ∧ (numDrains evs = 0 →
        (runEvents (NewAsyncTaskExecutor T) evs).results.length = numCompletes evs) := by
  have hpend := runEvents_pendingCount evs (NewAsyncTaskExecutor T)
  have hle := validFrom_completes_le evs 0 h
  have h0 : (NewAsyncTaskExecutor T).pendingCount = 0 := rfl
  rw [h0] at hpend
  refine ⟨?_, ?_, ?_, ?_, ?_⟩
  · rw [hpend]; omega
  · rw [hpend]; omega
  · rw [hpend]; omega
  · intro hc; rw [hpend]; omega
  · intro hd
    have := runEvents_results_length evs hd (NewAsyncTaskExecutor T)
    simpa [NewAsyncTaskExecutor] using this

/-- Witness for C3: a concrete valid trace — two submissions, two
completions — ends with pending count `0`. -/
theorem pendingCount_invariant_witness :
    validTrace (T := Unit)
        [ExecEvent.submit "a" 0, ExecEvent.complete ⟨"a", (), "", 0, 1, 1⟩,
         ExecEvent.submit "b" 0, ExecEvent.complete ⟨"b", (), "", 0, 2, 2⟩] = true
    ∧ (runEvents (NewAsyncTaskExecutor Unit)
        [ExecEvent.submit "a" 0, ExecEvent.complete ⟨"a", (), "", 0, 1, 1⟩,
         ExecEvent.submit "b" 0, ExecEvent.complete ⟨"b", (), "", 0, 2, 2⟩]).pendingCount = 0 :=
  ⟨by decide, (pendingCount_invariant _ (by decide)).2.2.2.1 (by decide)⟩

/-- **C2 counterexample.** At `v = 3`, `j = 50` and the admissible random draw
`r = 1/30`, the code returns `1`, which lies strictly below the claimed lower
bound `v·(1 − j/100) = 3/2`: Go's `int(...)` truncation can leave the claimed
interval. -/
theorem applyJitter_counterexample :
    (0:ℚ) ≤ 1/30 ∧ (1/30 : ℚ) < 1 ∧ (0:Int) < 3 ∧ (0:Int) ≤ 50 ∧ (50:Int) ≤ 100
    ∧ applyJitter 3 50 (1/30) = 1
    ∧ ¬ ((3:ℚ) * (1 - 50/100) ≤ ((applyJitter 3 50 (1/30) : Int) : ℚ)) := by
  norm_num [applyJitter, ratTrunc]

/-- **C2 (amended).** For `v > 0`, `j ∈ [0,100]` and any draw `r ∈ [0,1)`,
`applyJitter` returns a positive value in
`[max 1 ⌊v·(1 − j/100)⌋, v·(1 + j/100)]` (the lower endpoint is the floor of
the nominal one, clamped to 1, because the result is truncated toward zero and
then clamped); for `j = 0` it returns `v` exactly, and for `j ≤ 0` or `v ≤ 0`
the input is returned unchanged. -/
theorem applyJitter_bounds (v j : Int) (r : ℚ)
    (hv : 0 < v) (hj : 0 ≤ j) (hj100 : j ≤ 100) (hr0 : 0 ≤ r) (hr1 : r < 1) :
    0 < applyJitter v j r
    ∧ max 1 ⌊(v : ℚ) * (1 - (j:ℚ)/100)⌋ ≤ applyJitter v j r
    ∧ ((applyJitter v j r : Int) : ℚ) ≤ (v:ℚ) * (1 + (j:ℚ)/100)
    ∧ (j = 0 → applyJitter v j r = v)
    ∧ (∀ v' j' : Int, ∀ r' : ℚ, j' ≤ 0 ∨ v' ≤ 0 → applyJitter v' j' r' = v') := by
  have hnoop : ∀ v' j' : Int, ∀ r' : ℚ, j' ≤ 0 ∨ v' ≤ 0 → applyJitter v' j' r' = v' := by
    intro v' j' r' h
    simp [applyJitter, h]
  have hvq : (0:ℚ) < (v:ℚ) := by exact_mod_cast hv
  have hv1 : (1:Int) ≤ v := hv
  have hv1q : (1:ℚ) ≤ (v:ℚ) := by exact_mod_cast hv1
  have hjq : (0:ℚ) ≤ (j:ℚ) := by exact_mod_cast hj
  have hj100q : (j:ℚ) ≤ 100 := by exact_mod_cast hj100
  by_cases hj0 : j ≤ 0
  · have hjeq : j = 0 := le_antisymm hj0 hj
    subst hjeq
    have hval : applyJitter v 0 r = v := hnoop v 0 r (Or.inl le_rfl)
    rw [hval]
    refine ⟨hv, ?_, ?_, fun _ => rfl, hnoop⟩
    · have hfv : ⌊(v : ℚ) * (1 - ((0:Int):ℚ)/100)⌋ = v := by
        norm_num
      rw [hfv]
      omega
    · push_cast
      nlinarith
  · have hjpos : 0 < j := lt_of_not_le hj0
    have hcond : ¬ (j ≤ 0 ∨ v ≤ 0) := by
      push_neg
      exact ⟨hjpos, hv⟩
    set x : ℚ := (v : ℚ) + (r * 2 - 1) * ((v : ℚ) * (j:ℚ) / 100) with hx
    have happ : applyJitter v j r = if ratTrunc x < 1 then 1 else ratTrunc x := by
      simp only [applyJitter, hcond, if_false]
    set L : ℚ := (v : ℚ) * (1 - (j:ℚ)/100) with hL
    set U : ℚ := (v : ℚ) * (1 + (j:ℚ)/100) with hU
    have hvj : (0:ℚ) ≤ (v:ℚ) * (j:ℚ) := mul_nonneg hvq.le hjq
    have hLx : L ≤ x := by
      rw [hL, hx]
      nlinarith [mul_nonneg hr0 hvj]
    have hxU : x ≤ U := by
      rw [hU, hx]
      nlinarith [mul_nonneg (sub_nonneg.mpr hr1.le) hvj]
    have hL0 : 0 ≤ L := by
      rw [hL]
      have h1 : (0:ℚ) ≤ 1 - (j:ℚ)/100 := by linarith
      exact mul_nonneg hvq.le h1
    have hx0 : 0 ≤ x := le_trans hL0 hLx
    have htr : ratTrunc x = ⌊x⌋ := by
      rw [ratTrunc, if_pos hx0]
    have hfLx : ⌊L⌋ ≤ ⌊x⌋ := Int.floor_le_floor hLx
    have h1U : (1:ℚ) ≤ U := by
      rw [hU]
      nlinarith [hvj]
    rw [happ, htr]
    by_cases hclamp : ⌊x⌋ < 1
    · rw [if_pos hclamp]
      refine ⟨one_pos, by omega, ?_, fun h0 => absurd h0 (by omega), hnoop⟩
      push_cast
      exact h1U
    · rw [if_neg hclamp]
      push_neg at hclamp
      refine ⟨by omega, by omega, ?_, fun h0 => absurd h0 (by omega), hnoop⟩
      calc ((⌊x⌋ : Int) : ℚ) ≤ x := Int.floor_le x
        _ ≤ U := hxU

/-- Witness for C2 (amended): the hypotheses hold at `v = 10`, `j = 20`,
`r = 1/2`, and there the jittered value is positive. -/
theorem applyJitter_bounds_witness :
    (0:Int) < 10 ∧ 0 < applyJitter 10 20 (1/2) :=
  ⟨by norm_num,
   (applyJitter_bounds 10 20 (1/2) (by norm_num) (by norm_num) (by norm_num)
     (by norm_num) (by norm_num)).1⟩

/-- **C5.** `getToken` returns the cached token with no remote call exactly
when a cached entry exists and `now + 30 s` is before its expiry; otherwise it
performs the remote acquisition: a remote error or a missing token yields an
error with the cache unchanged, and a returned token is cached and returned,
with expiry defaulting to `now + 5 min` when the remote expiry is absent or
unparsable. -/
theorem getToken_cache_and_defaults (cache : List (String × tokenCache))
    (now : Int) (id : String) :
    (∀ c, List.lookup id cache = some c → now + 30 < c.expiresAt →
      ∀ remote, getToken cache now id remote = (Except.ok c.token, cache, false))
    ∧ (cacheValid cache now id = false →
        (∀ msg, getToken cache now id (RemoteTokenResult.err msg)
            = (Except.error ("failed to acquire token: " ++ msg), cache, true))
        ∧ getToken cache now id RemoteTokenResult.emptyToken
            = (Except.error "empty token response", cache, true)
        ∧ (∀ tok exp, getToken cache now id (RemoteTokenResult.ok tok exp)
            = (Except.ok tok, (id, ⟨tok, effectiveExpiry now exp⟩) :: cache, true)))
    ∧ (∀ t, effectiveExpiry now (RemoteExpiry.parsed t) = t)
    ∧ effectiveExpiry now RemoteExpiry.absent = now + 300
    ∧ effectiveExpiry now RemoteExpiry.unparsable = now + 300 := by
  refine ⟨?_, ?_, fun t => rfl, rfl, rfl⟩
  · intro c hc hexp remote
    simp [getToken, hc, hexp]
  · intro hinvalid
    have hfall : ∀ remote, getToken cache now id remote = getTokenLocked cache now id remote := by
      intro remote
      unfold getToken
      cases hl : List.lookup id cache with
      | none => simp [getTokenLocked, hl]
      | some c =>
          simp only [cacheValid, hl, decide_eq_false_iff_not] at hinvalid
          simp [getTokenLocked, hl, hinvalid]
    have hlocked : ∀ remote, getTokenLocked cache now id remote =
        ((acquireAndCache cache now id remote).1,
         (acquireAndCache cache now id remote).2, true) := by
      intro remote
      unfold getTokenLocked
      cases hl : List.lookup id cache with
      | none => simp
      | some c =>
          simp only [cacheValid, hl, decide_eq_false_iff_not] at hinvalid
          simp [hinvalid]
    refine ⟨fun msg => ?_, ?_, fun tok exp => ?_⟩ <;>
      rw [hfall, hlocked] <;> simp [acquireAndCache]

/-- Witness for C5: a warm, fresh cache entry is returned as-is, with no
remote call, even when the remote would error. -/
theorem getToken_cache_and_defaults_witness :
    getToken [("x", ⟨"t", 100⟩)] 0 "x" (RemoteTokenResult.err "boom")
      = (Except.ok "t", [("x", ⟨"t", 100⟩)], false) :=
  (getToken_cache_and_defaults [("x", ⟨"t", 100⟩)] 0 "x").1 ⟨"t", 100⟩
    (by simp [List.lookup]) (by norm_num) _

/-- **C8.** Two racing `getToken` calls on a cold cache serialize at the
exclusive lock: the winner's critical section performs the remote acquisition
and caches the token; the loser's critical section re-checks the cache
(double-checked pattern), finds the winner's entry still fresh, and returns it
without performing any remote call — one remote acquisition in total. -/
theorem getTokenLocked_single_remote_call (now1 now2 : Int) (id tok : String)
    (exp : RemoteExpiry) (hfresh : now2 + 30 < effectiveExpiry now1 exp) :
    getTokenLocked [] now1 id (RemoteTokenResult.ok tok exp)
      = (Except.ok tok, [(id, ⟨tok, effectiveExpiry now1 exp⟩)], true)
    ∧ (∀ remote2,
        getTokenLocked [(id, ⟨tok, effectiveExpiry now1 exp⟩)] now2 id remote2
          = (Except.ok tok, [(id, ⟨tok, effectiveExpiry now1 exp⟩)], false)) := by
  constructor
  · simp [getTokenLocked, acquireAndCache, List.lookup]
  · intro remote2
    simp [getTokenLocked, List.lookup, hfresh]

/-- Witness for C8: with the winner fetching at time `0` and a default
5-minute expiry, the loser's critical section at time `0` returns the cached
token without a remote call, whatever its own remote would have answered. -/
theorem getTokenLocked_single_remote_call_witness :
    getTokenLocked [("x", ⟨"tok", effectiveExpiry 0 RemoteExpiry.absent⟩)] 0 "x"
        (RemoteTokenResult.err "boom")
      = (Except.ok "tok", [("x", ⟨"tok", effectiveExpiry 0 RemoteExpiry.absent⟩)], false) :=
  (getTokenLocked_single_remote_call 0 0 "x" "tok" RemoteExpiry.absent
    (by norm_num [effectiveExpiry])).2 _

/-- **C9.** With `delaySeconds ≤ 0`, `StartSandboxInstanceWithAsyncStop`
returns `Success = false` with error `"delaySeconds must be greater than 0"`,
performs no remote start, and submits no task, for every start outcome. -/
theorem start_async_stop_nonpositive_delay (delaySeconds : Int)
    (startResp : ControlPlaneResponse) (submitErr : Option String)
    (h : delaySeconds ≤ 0) :
    StartSandboxInstanceWithAsyncStop delaySeconds startResp submitErr
      = ⟨⟨false, [], "delaySeconds must be greater than 0", "", 0⟩, false, false⟩ := by
  simp [StartSandboxInstanceWithAsyncStop, h]

/-- Witness for C9: `delaySeconds = 0` is rejected without starting anything. -/
theorem start_async_stop_nonpositive_delay_witness :
    StartSandboxInstanceWithAsyncStop 0 ⟨true, [], "", "", 0⟩ none
      = ⟨⟨false, [], "delaySeconds must be greater than 0", "", 0⟩, false, false⟩ :=
  start_async_stop_nonpositive_delay 0 _ none (by norm_num)

/-- **C6.** With a positive delay: a failed start submits no stop task; a
missing instance identifier submits no stop task; and when the start succeeds,
the identifier is found, but submitting the stop task errors, the returned
response has `Success = false` and an error describing the submission
failure. -/
theorem start_async_stop_error_paths (delaySeconds : Int)
    (startResp : ControlPlaneResponse) (submitErr : Option String)
    (hd : 0 < delaySeconds) :
    (startResp.success = false →
      StartSandboxInstanceWithAsyncStop delaySeconds startResp submitErr
        = ⟨startResp, true, false⟩)
    ∧ (instanceIdOf startResp.data = none →
      (StartSandboxInstanceWithAsyncStop delaySeconds startResp submitErr).stopSubmitCalled
        = false)
    ∧ (∀ e id, startResp.success = true → instanceIdOf startResp.data = some id →
        submitErr = some e →
        (StartSandboxInstanceWithAsyncStop delaySeconds startResp submitErr).resp.success = false
        ∧ (StartSandboxInstanceWithAsyncStop delaySeconds startResp submitErr).resp.error
            = "failed to submit stop task: " ++ e) := by
  have hd' : ¬ delaySeconds ≤ 0 := by omega
  refine ⟨?_, ?_, ?_⟩
  · intro hs
    simp [StartSandboxInstanceWithAsyncStop, hd', hs]
  · intro hid
    cases hsucc : startResp.success with
    | false => simp [StartSandboxInstanceWithAsyncStop, hd', hsucc]
    | true => simp [StartSandboxInstanceWithAsyncStop, hd', hsucc, hid]
  · intro e id hs hid hse
    subst hse
    simp [StartSandboxInstanceWithAsyncStop, hd', hs, hid]

/-- Witness for C6: start succeeded, identifier found, stop submission
rejected with "pool full" — the overall outcome is downgraded to failure. -/
theorem start_async_stop_error_paths_witness :
    (StartSandboxInstanceWithAsyncStop 5
        ⟨true, [("Instance", JValue.obj [("InstanceId", JValue.str "i-1")])], "", "", 0⟩
        (some "pool full")).resp.success = false
    ∧ (StartSandboxInstanceWithAsyncStop 5
        ⟨true, [("Instance", JValue.obj [("InstanceId", JValue.str "i-1")])], "", "", 0⟩
        (some "pool full")).resp.error = "failed to submit stop task: " ++ "pool full" :=
  (start_async_stop_error_paths 5 _ _ (by norm_num)).2.2 "pool full" "i-1" rfl rfl rfl

/-- **C10.** When the start succeeds but no non-empty string sits at
`Data.Instance.InstanceId`, the start response is returned unchanged — still
`Success = true`, all fields intact — with no stop task submitted; this is
the same returned response a caller sees when the identifier is found and
the stop task is submitted successfully, so the two outcomes are
indistinguishable from the response alone. -/
theorem start_async_stop_missing_id_frame (delaySeconds : Int)
    (startResp : ControlPlaneResponse)
    (hd : 0 < delaySeconds) (hs : startResp.success = true)
    (hid : instanceIdOf startResp.data = none) :
    (∀ submitErr, StartSandboxInstanceWithAsyncStop delaySeconds startResp submitErr
        = ⟨startResp, true, false⟩)
    ∧ (∀ resp' : ControlPlaneResponse, ∀ id, resp'.success = true →
        instanceIdOf resp'.data = some id →
        (StartSandboxInstanceWithAsyncStop delaySeconds resp' none).resp = resp') := by
  have hd' : ¬ delaySeconds ≤ 0 := by omega
  constructor
  · intro submitErr
    simp [StartSandboxInstanceWithAsyncStop, hd', hs, hid]
  · intro resp' id hs' hid'
    simp [StartSandboxInstanceWithAsyncStop, hd', hs', hid']

/-- Witness for C10: a successful start with empty `Data` is passed through
untouched and no stop task is submitted, even though submission would have
failed. -/
theorem start_async_stop_missing_id_frame_witness :
    StartSandboxInstanceWithAsyncStop 5 ⟨true, [], "", "", 0⟩ (some "pool full")
      = ⟨⟨true, [], "", "", 0⟩, true, false⟩ :=
  (start_async_stop_missing_id_frame 5 ⟨true, [], "", "", 0⟩ (by norm_num) rfl rfl).1
    (some "pool full")

lemma runStressRounds_eq {α β : Type} (exec : α → β) :
    ∀ configs : List α,
      runStressRounds exec configs
        = (configs.dropLast.map exec, configs.getLast?.map exec) := by
  intro configs
  induction configs with
  | nil => rfl
  | cons c rest ih =>
      cases rest with
      | nil => simp [runStressRounds]
      | cons c' rest' =>
          simp only [runStressRounds, ih]
          simp [List.getLast?_cons_cons]

/-- **C7.** The `RunAsyncStress` task body over `n ≥ 1` round configurations
executes the rounds strictly in list order, independently submits each of the
first `n − 1` round results as its own zero-delay task (in round order),
returns exactly the last round's outcome as the chain's top-level result, and
submits exactly one stop task, unconditionally. -/
theorem runAsyncStress_chain {α β : Type} (exec : α → β) (configs : List α)
    (h : configs ≠ []) :
    RunAsyncStressBody exec configs
      = (configs.dropLast.map exec, 1, some (exec (configs.getLast h))) := by
  simp [RunAsyncStressBody, runStressRounds_eq exec configs,
    List.getLast?_eq_getLast_of_ne_nil h]

/-- Witness for C7: a 3-round chain submits the first two round results
independently (2 intermediate results), returns round 3's outcome as the
top-level result, and submits exactly 1 stop task — with the stop result,
4 buffered results in total. -/
theorem runAsyncStress_chain_witness :
    RunAsyncStressBody (fun n : Nat => n * 10) [1, 2, 3] = ([10, 20], 1, some 30)
    ∧ ([10, 20] : List Nat).length + 1 + 1 = 4 := by
  have h := runAsyncStress_chain (fun n : Nat => n * 10) [1, 2, 3] (by simp)
  exact ⟨by simpa using h, rfl⟩

lemma foldl_retryStep (M : Int) (fails : String → Int → Bool) :
    ∀ (tasks : List failedTask) (q : List failedTask),
      tasks.foldl (retryStep M fails) q = q ++ tasks.filterMap (retryFate M fails) := by
  intro tasks
  induction tasks with
  | nil => intro q; simp
  | cons t rest ih =>
      intro q
      simp only [List.foldl_cons, List.filterMap_cons, ih]
      by_cases h1 : t.retryCount ≥ M
      · simp [retryStep, retryFate, h1]
      · by_cases h2 : fails t.imageRef (t.retryCount + 1)
        · simp [retryStep, retryFate, h1, h2, addFailedTask]
        · simp [retryStep, retryFate, h1, h2]

lemma processRound_eq_filterMap (M : Int) (fails : String → Int → Bool)
    (tasks : List failedTask) :
    processRound M fails tasks = tasks.filterMap (retryFate M fails) := by
  simpa using foldl_retryStep M fails tasks []

lemma sum_map_filterMap_le {α : Type} (f : α → Option α) (g : α → Nat)
    (hg : ∀ a b, f a = some b → g b ≤ g a) :
    ∀ l : List α, ((l.filterMap f).map g).sum ≤ (l.map g).sum := by
  intro l
  induction l with
  | nil => simp
  | cons a t ih =>
      cases hfa : f a with
      | none =>
          simp only [List.filterMap_cons, hfa, List.map_cons, List.sum_cons]
          omega
      | some b =>
          simp only [List.filterMap_cons, hfa, List.map_cons, List.sum_cons]
          have := hg a b hfa
          omega

lemma sum_map_filterMap_lt {α : Type} (f : α → Option α) (g : α → Nat)
    (hg : ∀ a b, f a = some b → g b < g a) (hpos : ∀ a, 0 < g a) :
    ∀ l : List α, l ≠ [] → ((l.filterMap f).map g).sum < (l.map g).sum := by
  intro l hl
  cases l with
  | nil => exact absurd rfl hl
  | cons a t =>
      have hle := sum_map_filterMap_le f g (fun a b h => le_of_lt (hg a b h)) t
      cases hfa : f a with
      | none =>
          simp only [List.filterMap_cons, hfa, List.map_cons, List.sum_cons]
          have := hpos a
          omega
      | some b =>
          simp only [List.filterMap_cons, hfa, List.map_cons, List.sum_cons]
          have := hg a b hfa
          omega

lemma retryFate_measure (M : Int) (fails : String → Int → Bool) :
    ∀ t t', retryFate M fails t = some t' → taskMeasure M t' < taskMeasure M t := by
  intro t t' h
  unfold retryFate at h
  by_cases h1 : t.retryCount ≥ M
  · simp [h1] at h
  · by_cases h2 : fails t.imageRef (t.retryCount + 1)
    · simp only [if_neg h1, if_pos h2, Option.some.injEq] at h
      subst h
      simp only [taskMeasure]
      omega
    · simp [h1, h2] at h

lemma taskMeasure_pos (M : Int) (t : failedTask) : 0 < taskMeasure M t := by
  simp [taskMeasure]

lemma processRound_measure_lt (M : Int) (fails : String → Int → Bool)
    (q : List failedTask) (hq : q ≠ []) :
    queueMeasure M (processRound M fails q) < queueMeasure M q := by
  rw [processRound_eq_filterMap]
  exact sum_map_filterMap_lt (retryFate M fails) (taskMeasure M)
    (retryFate_measure M fails) (taskMeasure_pos M) q hq

lemma retryRoundsFuel_nil (M : Int) (fails : String → Int → Bool) :
    ∀ n, retryRoundsFuel M fails n [] = [] := by
  intro n
  cases n <;> rfl

lemma queueMeasure_pos (M : Int) (a : failedTask) (t : List failedTask) :
    0 < queueMeasure M (a :: t) := by
  simp only [queueMeasure, List.map_cons, List.sum_cons]
  have := taskMeasure_pos M a
  omega

lemma retryRoundsFuel_stable (M : Int) (fails : String → Int → Bool) :
    ∀ n q, queueMeasure M q ≤ n → ∀ m, n ≤ m →
      retryRoundsFuel M fails m q = retryRoundsFuel M fails n q := by
  intro n
  induction n with
  | zero =>
      intro q hq m _
      have hqnil : q = [] := by
        cases q with
        | nil => rfl
        | cons a t => exact absurd hq (by have := queueMeasure_pos M a t; omega)
      subst hqnil
      rw [retryRoundsFuel_nil, retryRoundsFuel_nil]
  | succ n ih =>
      intro q hq m hm
      cases q with
      | nil => rw [retryRoundsFuel_nil, retryRoundsFuel_nil]
      | cons a t =>
          cases m with
          | zero => omega
          | succ m' =>
              show (a :: t) :: retryRoundsFuel M fails m' (processRound M fails (a :: t))
                  = (a :: t) :: retryRoundsFuel M fails n (processRound M fails (a :: t))
              have hlt : queueMeasure M (processRound M fails (a :: t))
                  < queueMeasure M (a :: t) :=
                processRound_measure_lt M fails (a :: t) (by simp)
              have h1 : queueMeasure M (processRound M fails (a :: t)) ≤ n := by omega
              rw [ih (processRound M fails (a :: t)) h1 m' (by omega)]

lemma retryRounds_nil (M : Int) (fails : String → Int → Bool) :
    retryRounds M fails [] = [] := by
  simp [retryRounds, queueMeasure, retryRoundsFuel]

lemma retryRounds_cons (M : Int) (fails : String → Int → Bool)
    (q : List failedTask) (hq : q ≠ []) :
    retryRounds M fails q = q :: retryRounds M fails (processRound M fails q) := by
  obtain ⟨a, t, rfl⟩ : ∃ a t, q = a :: t := by
    cases q with
    | nil => exact absurd rfl hq
    | cons a t => exact ⟨a, t, rfl⟩
  unfold retryRounds
  have hpos := queueMeasure_pos M a t
  obtain ⟨s, hs⟩ : ∃ s, queueMeasure M (a :: t) = s + 1 := ⟨queueMeasure M (a :: t) - 1, by omega⟩
  rw [hs]
  show (a :: t) :: retryRoundsFuel M fails s (processRound M fails (a :: t))
      = (a :: t) :: retryRoundsFuel M fails
          (queueMeasure M (processRound M fails (a :: t))) (processRound M fails (a :: t))
  have hlt : queueMeasure M (processRound M fails (a :: t)) < queueMeasure M (a :: t) :=
    processRound_measure_lt M fails (a :: t) (by simp)
  rw [retryRoundsFuel_stable M fails (queueMeasure M (processRound M fails (a :: t)))
    (processRound M fails (a :: t)) le_rfl s (by omega)]

lemma retryRounds_eq_nil_iff (M : Int) (fails : String → Int → Bool)
    (q : List failedTask) : retryRounds M fails q = [] ↔ q = [] := by
  constructor
  · intro h
    by_contra hq
    rw [retryRounds_cons M fails q hq] at h
    simp at h
  · intro h
    subst h
    exact retryRounds_nil M fails

lemma retryRounds_rounds_nonempty (M : Int) (fails : String → Int → Bool) :
    ∀ (n : Nat) (q), queueMeasure M q ≤ n → ∀ r ∈ retryRounds M fails q, r ≠ [] := by
  intro n
  induction n with
  | zero =>
      intro q hq r hr
      have hqnil : q = [] := by
        cases q with
        | nil => rfl
        | cons a t => exact absurd hq (by have := queueMeasure_pos M a t; omega)
      subst hqnil
      rw [retryRounds_nil] at hr
      simp at hr
  | succ n ih =>
      intro q hq r hr
      by_cases hqe : q = []
      · subst hqe
        rw [retryRounds_nil] at hr
        simp at hr
      · rw [retryRounds_cons M fails q hqe] at hr
        rcases List.mem_cons.mp hr with h1 | h2
        · exact h1 ▸ hqe
        · have hlt := processRound_measure_lt M fails q hqe
          exact ih (processRound M fails q) (by omega) r h2

lemma retryRounds_last_empty (M : Int) (fails : String → Int → Bool) :
    ∀ (n : Nat) (q), queueMeasure M q ≤ n →
      ∀ h : retryRounds M fails q ≠ [],
        processRound M fails ((retryRounds M fails q).getLast h) = [] := by
  intro n
  induction n with
  | zero =>
      intro q hq h
      have hqnil : q = [] := by
        cases q with
        | nil => rfl
        | cons a t => exact absurd hq (by have := queueMeasure_pos M a t; omega)
      subst hqnil
      exact absurd (retryRounds_nil M fails) h
  | succ n ih =>
      intro q hq h
      by_cases hqe : q = []
      · subst hqe
        exact absurd (retryRounds_nil M fails) h
      · have hcons := retryRounds_cons M fails q hqe
        by_cases hrest : retryRounds M fails (processRound M fails q) = []
        · have hq' : processRound M fails q = [] :=
            (retryRounds_eq_nil_iff M fails _).mp hrest
          have : retryRounds M fails q = [q] := by rw [hcons, hrest]
          simp only [this, List.getLast_singleton]
          exact hq'
        · have hlt := processRound_measure_lt M fails q hqe
          have hrec := ih (processRound M fails q) (by omega) hrest
          obtain ⟨b, l, hbl⟩ : ∃ b l,
              retryRounds M fails (processRound M fails q) = b :: l := by
            cases hx : retryRounds M fails (processRound M fails q) with
            | nil => exact absurd hx hrest
            | cons b l => exact ⟨b, l, rfl⟩
          have hgl : (retryRounds M fails q).getLast? =
              (retryRounds M fails (processRound M fails q)).getLast? := by
            rw [hcons, hbl, List.getLast?_cons_cons]
          rw [List.getLast?_eq_getLast_of_ne_nil h,
            List.getLast?_eq_getLast_of_ne_nil hrest] at hgl
          rw [Option.some.inj hgl]
          exact hrec

lemma mem_processRound_iff (M : Int) (fails : String → Int → Bool)
    (queue : List failedTask) (t' : failedTask) :
    t' ∈ processRound M fails queue ↔
      ∃ t ∈ queue, t.retryCount < M ∧ fails t.imageRef (t.retryCount + 1) = true
        ∧ t' = ⟨t.imageRef, t.retryCount + 1⟩ := by
  rw [processRound_eq_filterMap, List.mem_filterMap]
  constructor
  · rintro ⟨a, ha, hfa⟩
    unfold retryFate at hfa
    by_cases h1 : a.retryCount ≥ M
    · simp [h1] at hfa
    · by_cases h2 : fails a.imageRef (a.retryCount + 1)
      · simp only [if_neg h1, if_pos h2, Option.some.injEq] at hfa
        exact ⟨a, ha, by omega, h2, hfa.symm⟩
      · simp [h1, h2] at hfa
  · rintro ⟨a, ha, h1, h2, rfl⟩
    refine ⟨a, ha, ?_⟩
    unfold retryFate
    rw [if_neg (by omega), if_pos h2]

/-- **C4.** Each retry round of `processRetries` drains the whole queue:
a drained item is in the next round's queue iff it came from a drained item
below the maximum retry count (default 3 when the configured value is ≤ 0)
whose resubmission — with retry count incremented by one — failed again;
items at the maximum are discarded permanently; rounds are never empty; and
the loop terminates exactly when a drain yields an empty queue (the round
after the last drained queue is empty). -/
theorem processRetries_spec (m : Int) (fails : String → Int → Bool)
    (queue : List failedTask) :
    (m ≤ 0 → effMaxRetries m = 3)
    ∧ (0 < m → effMaxRetries m = m)
    ∧ (∀ t', t' ∈ processRound (effMaxRetries m) fails queue ↔
        ∃ t ∈ queue, t.retryCount < effMaxRetries m
          ∧ fails t.imageRef (t.retryCount + 1) = true
          ∧ t' = ⟨t.imageRef, t.retryCount + 1⟩)
    ∧ (retryRounds (effMaxRetries m) fails queue = [] ↔ queue = [])
    ∧ (∀ r ∈ retryRounds (effMaxRetries m) fails queue, r ≠ [])
    ∧ (∀ h : retryRounds (effMaxRetries m) fails queue ≠ [],
        processRound (effMaxRetries m) fails
          ((retryRounds (effMaxRetries m) fails queue).getLast h) = []) := by
  refine ⟨?_, ?_, mem_processRound_iff _ fails queue,
    retryRounds_eq_nil_iff _ fails queue,
    retryRounds_rounds_nonempty _ fails (queueMeasure (effMaxRetries m) queue) queue le_rfl,
    retryRounds_last_empty _ fails (queueMeasure (effMaxRetries m) queue) queue le_rfl⟩
  · intro h; simp only [effMaxRetries, if_pos h]
  · intro h; simp only [effMaxRetries, if_neg (by omega : ¬ m ≤ 0)]

/-- Witness for C4: with everything failing and default maximum (config 0 →
3), the single queued task at retry count 0 is resubmitted and re-queued at
retry count 1. -/
theorem processRetries_spec_witness :
    (⟨"img", 1⟩ : failedTask) ∈ processRound (effMaxRetries 0) (fun _ _ => true) [⟨"img", 0⟩] :=
  ((processRetries_spec 0 (fun _ _ => true) [⟨"img", 0⟩]).2.2.1 ⟨"img", 1⟩).mpr
    ⟨⟨"img", 0⟩, by simp, by norm_num [effMaxRetries], rfl, rfl⟩

end AgsCookbook
